import Mathlib

/-!
Verification of the plugins-workspace repository against its specification.

The development shallowly embeds two parts of the repository:

* `Upload` — the `download` command of `plugins/upload/src/lib.rs`,
  modelled as a pure function over an abstract HTTP response (status code,
  optional content length, and a stream of body chunks, each chunk a byte
  list).  File writes and progress-channel sends are made explicit in the
  returned outcome.

* `Authenticator` — the FIDO U2F engine of `plugins/authenticator`.
  The crate's `lib.rs` only contains the Tauri command wrappers; the
  `auth` / `u2f` modules themselves are not part of the provided sources,
  so the flows and verifiers are modelled from the specification
  (sections 4.2–4.6).  SHA-256 is kept abstract as a parameter
  `hash : String → Bytes`; ECDSA/P-256 signatures are modelled
  symbolically: the signature produced by the holder of the private key
  matching public key `k` over message `m` is the injectively encoded
  byte string `mkSig k m`, and verification compares against it.
  The DER attestation certificate is modelled as a tag byte, a one-byte
  length, and the embedded public key.

Bytes are `Nat` lists; machine-integer reads (the 4-byte big-endian
counter) are made explicit with `% 2 ^ 32` arithmetic.
-/

/-- Byte strings, as lists of naturals. -/
abbrev Bytes := List Nat

namespace Upload

/-- One item pulled from `response.bytes_stream()` by `try_next`:
either a data chunk or an I/O error. -/
inductive StreamItem where
  | chunk (bytes : Bytes)
  | ioError
deriving DecidableEq, Repr

/-- An HTTP response as observed by `download`: status code, the optional
`Content-Length` header, and the body stream. -/
structure HttpResponse where
  status : Nat
  contentLength : Option Nat
  body : List StreamItem
deriving DecidableEq, Repr

/-- The payload sent on the progress channel
(`struct ProgressPayload { progress: u64, total: u64 }`). -/
structure ProgressPayload where
  progress : Nat
  total : Nat
deriving DecidableEq, Repr

/-- Observable outcome of a `download` call: the bytes written to
`file_path`, the progress events sent on the channel (send errors are
ignored by the code, so every send is recorded), and whether the call
returned `Ok(())`. -/
structure DownloadOutcome where
  file : Bytes
  events : List ProgressPayload
  ok : Bool
deriving DecidableEq, Repr

/-- The `while let Some(chunk) = stream.try_next().await?` loop of
`download`: each chunk is appended to the file and a progress event
carrying `chunk.len()` and `total` is sent; an I/O error aborts the loop
with the error propagated (`ok = false`). -/
def downloadLoop (total : Nat) : List StreamItem → Bytes → List ProgressPayload →
    DownloadOutcome
  | [], file, events => ⟨file, events, true⟩
  | .ioError :: _, file, events => ⟨file, events, false⟩
  | .chunk c :: rest, file, events =>
      downloadLoop total rest (file ++ c) (events ++ [⟨c.length, total⟩])

/-- The `download` command (`plugins/upload/src/lib.rs`, lines 47–78), on
the path where the request was sent and `File::create` succeeded.
`existing` is the prior content of `file_path`; `File::create` truncates,
so the written file starts empty regardless of it.  `total` is
`response.content_length().unwrap_or(0)`.  The response status code is
never inspected. -/
def download (existing : Bytes) (resp : HttpResponse) : DownloadOutcome :=
  let total := resp.contentLength.getD 0
  downloadLoop total resp.body [] []

end Upload

namespace Authenticator

/-- The error taxonomy of the U2F core (spec section 7). -/
inductive U2fError where
  | NoDevice
  | TimedOut
  | ProtocolError
  | MalformedResponse
  | InvalidCertificate
  | InvalidSignature
deriving DecidableEq, Repr

/-- Modelled from the spec: the transport's "short fixed delay" between
retries of an exchange that reported "conditions not satisfied"
(section 4.1), in milliseconds.  The `auth` module is not among the
provided sources; the exact value is irrelevant to the claims, only its
positivity is used. -/
def retryDelay : Nat := 100

/-- U2F REGISTER instruction byte. -/
def U2F_REGISTER : Nat := 1

/-- U2F AUTHENTICATE instruction byte. -/
def U2F_AUTHENTICATE : Nat := 2

/-- AUTHENTICATE control byte "enforce user presence and sign". -/
def U2F_AUTH_ENFORCE : Nat := 3

/-- Success status word. -/
def SW_NO_ERROR : Nat := 0x9000

/-- Modelled from the spec: APDU `encode` (section 4.2; the codec module
is not among the provided sources).  Lays out class byte, instruction
byte, two parameter bytes, a three-byte extended length field, the data
payload, and a two-byte trailer requesting the maximum response
length. -/
def apduEncode (ins p1 p2 : Nat) (data : Bytes) : Bytes :=
  0 :: ins :: p1 :: p2 :: 0 :: (data.length / 256 % 256) :: (data.length % 256) ::
    (data ++ [0, 0])

/-- Modelled from the spec: APDU `decode` (section 4.2; the codec module
is not among the provided sources).  A response needs at least 2
trailing bytes for the status word; anything shorter is
`MalformedResponse`.  The status word is the big-endian value of the
last two bytes, the payload everything before them. -/
def apduDecode (bytes : Bytes) : Except U2fError (Nat × Bytes) :=
  match bytes.drop (bytes.length - 2) with
  | [a, b] => .ok (a * 256 + b, bytes.take (bytes.length - 2))
  | _ => .error .MalformedResponse

/-- Modelled from the spec: the transport's exchange-with-retry loop
(sections 4.1 and 9; the `auth` module is not among the provided
sources).  `behavior e` is the token's answer to the exchange performed
at elapsed time `e`: `some resp` a complete response, `none` the
"conditions not satisfied" status, which is absorbed by retrying after
`retryDelay` until the elapsed time exceeds `timeout`.  Returns the
result together with the elapsed time at which the loop exited. -/
def exchangeLoop (behavior : Nat → Option Bytes) (timeout elapsed : Nat) :
    Except U2fError Bytes × Nat :=
  if _h : timeout < elapsed then (.error .TimedOut, elapsed)
  else
    match behavior elapsed with
    | some resp => (.ok resp, elapsed)
    | none => exchangeLoop behavior timeout (elapsed + retryDelay)
termination_by timeout + 1 - elapsed
decreasing_by simp only [retryDelay]; omega

/-- Modelled from the spec: the ECDSA/P-256/SHA-256 signature, symbolic
(the `u2f` module is not among the provided sources).  The signature the
holder of the private key matching public key `key` produces over `msg`
is the injective encoding `key.length :: key ++ msg`. -/
def mkSig (key msg : Bytes) : Bytes := key.length :: (key ++ msg)

/-- Modelled from the spec: "verifies the signature over that byte
string using ECDSA/P-256/SHA-256" (section 4.4), symbolically: the
signature is valid for `key` over `msg` exactly when it is the one the
matching private key produces. -/
def verifySig (key msg sig : Bytes) : Bool := decide (sig = mkSig key msg)

/-- Modelled from the spec: the DER attestation certificate, simplified
to a tag byte `0x30`, a one-byte content length, and the embedded
attestation public key as content. -/
def mkCert (key : Bytes) : Bytes := 0x30 :: key.length :: key

/-- Modelled from the spec: "decodes the DER-encoded attestation
certificate" (section 4.4), extracting the embedded public key; a
certificate that does not parse is `InvalidCertificate`. -/
def parseCert (cert : Bytes) : Except U2fError Bytes :=
  match cert with
  | t :: n :: rest =>
      if t = 0x30 ∧ n = rest.length then .ok rest else .error .InvalidCertificate
  | _ => .error .InvalidCertificate

/-- Structured decode of a REGISTER response (spec section 3). -/
structure RegistrationResult where
  pubKey : Bytes
  keyHandle : Bytes
  attestCert : Bytes
  signature : Bytes
deriving DecidableEq, Repr

/-- Modelled from the spec: positional parse of a REGISTER payload
(section 4.3; the `u2f` module is not among the provided sources):
1 reserved byte that must equal `0x05`, 65-byte public key, 1
key-handle-length byte, that many key-handle bytes, then the remainder
split into certificate and signature at the point determined by the
certificate's own length prefix.  Any positional failure is
`MalformedResponse`. -/
def parseRegistration (payload : Bytes) : Except U2fError RegistrationResult :=
  match payload with
  | r :: rest =>
      if r = 5 then
        if 65 ≤ rest.length then
          let pk := rest.take 65
          match rest.drop 65 with
          | m :: rest2 =>
              if m ≤ rest2.length then
                let kh := rest2.take m
                match rest2.drop m with
                | t :: n :: rest4 =>
                    if n ≤ rest4.length then
                      .ok ⟨pk, kh, t :: n :: rest4.take n, rest4.drop n⟩
                    else .error .MalformedResponse
                | _ => .error .MalformedResponse
              else .error .MalformedResponse
          | [] => .error .MalformedResponse
        else .error .MalformedResponse
      else .error .MalformedResponse
  | [] => .error .MalformedResponse

/-- The byte string a token signs at registration (spec section 4.4):
`0x00 || ApplicationId || ChallengeHash || KeyHandle || PublicKey`,
where `ApplicationId = hash application` and
`ChallengeHash = hash challenge`. -/
def registerMessage (hash : String → Bytes) (application challenge : String)
    (keyHandle pubKey : Bytes) : Bytes :=
  0 :: (hash application ++ (hash challenge ++ (keyHandle ++ pubKey)))

/-- Modelled from the spec: `verify_registration` (section 4.4; the
`u2f` module is not among the provided sources).  Parses the attestation
certificate's embedded public key, reconstructs the signed byte string,
verifies the signature, and returns the registration's public key on
success. -/
def verify_registration (hash : String → Bytes) (application challenge : String)
    (r : RegistrationResult) : Except U2fError Bytes :=
  match parseCert r.attestCert with
  | .error e => .error e
  | .ok key =>
      if verifySig key (registerMessage hash application challenge r.keyHandle r.pubKey)
          r.signature
      then .ok r.pubKey
      else .error .InvalidSignature

/-- Structured decode of an AUTHENTICATE response (spec section 3):
user-presence flag, 4-byte big-endian counter, trailing signature. -/
structure SignResult where
  presence : Nat
  counter : Bytes
  signature : Bytes
deriving DecidableEq, Repr

/-- Modelled from the spec: positional parse of an AUTHENTICATE payload
(section 4.5): 1-byte presence flag, 4-byte big-endian counter, the
remaining bytes are the signature. -/
def parseSign (payload : Bytes) : Except U2fError SignResult :=
  match payload with
  | p :: c1 :: c2 :: c3 :: c4 :: sig => .ok ⟨p, [c1, c2, c3, c4], sig⟩
  | _ => .error .MalformedResponse

/-- Big-endian 4-byte encoding of a counter value. -/
def toBE4 (n : Nat) : Bytes :=
  [n / 2 ^ 24 % 256, n / 2 ^ 16 % 256, n / 2 ^ 8 % 256, n % 256]

/-- Big-endian decoding of the 4-byte counter into an unsigned 32-bit
value. -/
def fromBE4 (c : Bytes) : Nat :=
  c.getD 0 0 * 2 ^ 24 + c.getD 1 0 * 2 ^ 16 + c.getD 2 0 * 2 ^ 8 + c.getD 3 0

/-- The byte string a token signs at authentication (spec section 4.6):
`ApplicationId || presence_flag || counter(4 bytes BE) ||
ChallengeHash`. -/
def signMessage (hash : String → Bytes) (application : String) (presence : Nat)
    (counter : Bytes) (challenge : String) : Bytes :=
  hash application ++ (presence :: (counter ++ hash challenge))

/-- Modelled from the spec: `verify_signature` (section 4.6; the `u2f`
module is not among the provided sources).  Reconstructs the signed byte
string, verifies with the supplied public key, and returns the decoded
counter on success.  The key handle is part of the contract but not of
the signed string. -/
def verify_signature (hash : String → Bytes) (application challenge : String)
    (s : SignResult) (keyHandle pubKey : Bytes) : Except U2fError Nat :=
  if verifySig pubKey (signMessage hash application s.presence s.counter challenge)
      s.signature
  then .ok (fromBE4 s.counter)
  else .error .InvalidSignature

/-- REGISTER command data (spec section 4.3):
`ChallengeHash || ApplicationId`. -/
def registerRequest (hash : String → Bytes) (application challenge : String) : Bytes :=
  hash challenge ++ hash application

/-- AUTHENTICATE command data (spec section 4.5):
`ChallengeHash || ApplicationId || key_handle_length || key_handle`. -/
def authRequest (hash : String → Bytes) (application challenge : String)
    (keyHandle : Bytes) : Bytes :=
  hash challenge ++ (hash application ++ (keyHandle.length :: keyHandle))

/-- Modelled from the spec: the `register` flow (section 4.3; the `auth`
module is not among the provided sources).  Encodes the REGISTER APDU,
drives the exchange loop against the token behavior, decodes the
response, checks the status word, and parses the payload
positionally. -/
def register (hash : String → Bytes) (behavior : Bytes → Nat → Option Bytes)
    (application : String) (timeout : Nat) (challenge : String) :
    Except U2fError RegistrationResult :=
  let req := apduEncode U2F_REGISTER 0 0 (registerRequest hash application challenge)
  match (exchangeLoop (behavior req) timeout 0).1 with
  | .error e => .error e
  | .ok resp =>
      match apduDecode resp with
      | .error e => .error e
      | .ok (sw, payload) =>
          if sw = SW_NO_ERROR then parseRegistration payload
          else .error .ProtocolError

/-- Modelled from the spec: the `sign` flow (section 4.5; the `auth`
module is not among the provided sources).  Mirrors `register` with the
AUTHENTICATE instruction and the enforce-user-presence control byte. -/
def sign (hash : String → Bytes) (behavior : Bytes → Nat → Option Bytes)
    (application : String) (timeout : Nat) (challenge : String)
    (keyHandle : Bytes) : Except U2fError SignResult :=
  let req := apduEncode U2F_AUTHENTICATE U2F_AUTH_ENFORCE 0
    (authRequest hash application challenge keyHandle)
  match (exchangeLoop (behavior req) timeout 0).1 with
  | .error e => .error e
  | .ok resp =>
      match apduDecode resp with
      | .error e => .error e
      | .ok (sw, payload) =>
          if sw = SW_NO_ERROR then parseSign payload
          else .error .ProtocolError

/-- A fixture token: its credential public key, the key handle it
issues, its attestation key, its counter, and the presence flag it
reports. -/
structure Token where
  pubKey : Bytes
  keyHandle : Bytes
  attestKey : Bytes
  counter : Nat
  presence : Nat

/-- The REGISTER response payload of a token that always signs
correctly: reserved `0x05`, public key, key-handle length and bytes,
attestation certificate, and a valid signature over the registration
message. -/
def tokenRegisterPayload (hash : String → Bytes) (tok : Token)
    (application challenge : String) : Bytes :=
  5 :: (tok.pubKey ++ (tok.keyHandle.length :: (tok.keyHandle ++
    (mkCert tok.attestKey ++
      mkSig tok.attestKey
        (registerMessage hash application challenge tok.keyHandle tok.pubKey)))))

/-- Behavior of a token that answers every REGISTER exchange at once
with a correctly signed response and a success status word. -/
def honestRegisterBehavior (hash : String → Bytes) (tok : Token)
    (application challenge : String) : Bytes → Nat → Option Bytes :=
  fun _ _ => some (tokenRegisterPayload hash tok application challenge ++ [0x90, 0x00])

/-- The AUTHENTICATE response payload of a token that always signs
correctly: presence flag, big-endian counter, and a valid signature
over the assertion message with the credential key. -/
def tokenSignPayload (hash : String → Bytes) (tok : Token)
    (application challenge : String) : Bytes :=
  tok.presence :: (toBE4 tok.counter ++
    mkSig tok.pubKey
      (signMessage hash application tok.presence (toBE4 tok.counter) challenge))

/-- Behavior of a token that answers every AUTHENTICATE exchange at once
with a correctly signed response and a success status word. -/
def honestSignBehavior (hash : String → Bytes) (tok : Token)
    (application challenge : String) : Bytes → Nat → Option Bytes :=
  fun _ _ => some (tokenSignPayload hash tok application challenge ++ [0x90, 0x00])

/-- Behavior of a token that reports "conditions not satisfied" on every
exchange. -/
def neverSatisfiedBehavior : Bytes → Nat → Option Bytes := fun _ _ => none

/-- Selector for the four byte-string fields of a registration
result. -/
inductive RegField where
  | pubKey
  | keyHandle
  | attestCert
  | signature
deriving DecidableEq, Repr

/-- The bytes of the selected field. -/
def fieldBytes (r : RegistrationResult) : RegField → Bytes
  | .pubKey => r.pubKey
  | .keyHandle => r.keyHandle
  | .attestCert => r.attestCert
  | .signature => r.signature

/-- Overwrite byte `i` of the selected field with `v`. -/
def mutateField (r : RegistrationResult) (f : RegField) (i v : Nat) :
    RegistrationResult :=
  match f with
  | .pubKey => { r with pubKey := r.pubKey.set i v }
  | .keyHandle => { r with keyHandle := r.keyHandle.set i v }
  | .attestCert => { r with attestCert := r.attestCert.set i v }
  | .signature => { r with signature := r.signature.set i v }

/-- The commands the authenticator plugin registers with its invoke
handler (`plugins/authenticator/src/lib.rs`, lines 71–77). -/
def authenticatorCommands : List String :=
  ["init_auth", "register", "verify_registration", "sign", "verify_signature"]

/-- The four core operations the spec names as the exposed surface
(spec section 1). -/
def specCoreOperations : List String :=
  ["register", "verify_registration", "sign", "verify_signature"]

end Authenticator

namespace Upload

theorem downloadLoop_chunks (total : Nat) (chunks : List Bytes) :
    ∀ (file : Bytes) (events : List ProgressPayload),
      downloadLoop total (chunks.map StreamItem.chunk) file events =
        ⟨file ++ chunks.flatten,
         events ++ chunks.map (fun c => ⟨c.length, total⟩), true⟩ := by
  induction chunks with
  | nil => intro file events; simp [downloadLoop]
  | cons c cs ih =>
      intro file events
      simp only [List.map_cons, downloadLoop, ih, List.flatten_cons]
      simp [List.append_assoc]

theorem downloadLoop_total_mem (total : Nat) :
    ∀ (items : List StreamItem) (file : Bytes) (events : List ProgressPayload)
      (p : ProgressPayload), p ∈ (downloadLoop total items file events).events →
      p ∈ events ∨ p.total = total := by
  intro items
  induction items with
  | nil => intro file events p hp; exact Or.inl hp
  | cons it rest ih =>
      intro file events p hp
      cases it with
      | ioError => exact Or.inl hp
      | chunk c =>
          simp only [downloadLoop] at hp
          rcases ih (file ++ c) (events ++ [⟨c.length, total⟩]) p hp with h | h
          · rcases List.mem_append.1 h with h' | h'
            · exact Or.inl h'
            · simp at h'
              right
              rw [h']
          · exact Or.inr h

/-- C8: for every HTTP response whose body streams without I/O error,
`download` returns `Ok`, writes the full response body to the file
(starting from an empty file, truncating whatever was there), and its
outcome does not depend on the HTTP status code: no error status is
surfaced as a failure. -/
theorem download_ignores_status (existing : Bytes) (resp : HttpResponse)
    (chunks : List Bytes) (hbody : resp.body = chunks.map StreamItem.chunk) :
    (download existing resp).ok = true ∧
    (download existing resp).file = chunks.flatten ∧
    ∀ s, download existing { resp with status := s } = download existing resp := by
  unfold download
  simp [hbody, downloadLoop_chunks]

theorem download_ignores_status_witness :
    (⟨404, none, [StreamItem.chunk [1, 2], StreamItem.chunk [3]]⟩ : HttpResponse).body =
      [[1, 2], [3]].map StreamItem.chunk ∧
    ((download [9, 9, 9] ⟨404, none, [StreamItem.chunk [1, 2], StreamItem.chunk [3]]⟩).ok
        = true ∧
      (download [9, 9, 9] ⟨404, none, [StreamItem.chunk [1, 2], StreamItem.chunk [3]]⟩).file
        = [[1, 2], [3]].flatten ∧
      ∀ s, download [9, 9, 9]
          { (⟨404, none, [StreamItem.chunk [1, 2], StreamItem.chunk [3]]⟩ : HttpResponse)
              with status := s }
        = download [9, 9, 9] ⟨404, none, [StreamItem.chunk [1, 2], StreamItem.chunk [3]]⟩) :=
  ⟨rfl, download_ignores_status [9, 9, 9]
    ⟨404, none, [StreamItem.chunk [1, 2], StreamItem.chunk [3]]⟩ [[1, 2], [3]] rfl⟩

/-- C9: every progress event carries the length of the most recent chunk
only, not the cumulative byte count; consequently, for a body delivered
in more than one (nonempty) chunk, the final reported progress differs
from the total number of bytes downloaded. -/
theorem download_progress_last_chunk (existing : Bytes) (resp : HttpResponse)
    (chunks : List Bytes) (hbody : resp.body = chunks.map StreamItem.chunk) :
    (download existing resp).events =
      chunks.map (fun c => ⟨c.length, resp.contentLength.getD 0⟩) ∧
    (2 ≤ chunks.length → (∀ c ∈ chunks, c ≠ []) →
      ∀ p, (download existing resp).events.getLast? = some p →
        p.progress ≠ (download existing resp).file.length) := by
  have hev : (download existing resp).events =
      chunks.map (fun c => ⟨c.length, resp.contentLength.getD 0⟩) := by
    unfold download
    simp [hbody, downloadLoop_chunks]
  refine ⟨hev, ?_⟩
  intro hlen hne p hp
  have hfile : (download existing resp).file = chunks.flatten := by
    unfold download
    simp [hbody, downloadLoop_chunks]
  rw [hev, List.getLast?_map] at hp
  rcases Option.map_eq_some'.1 hp with ⟨lc, hlc, hplc⟩
  have hlcmem : lc ∈ chunks := by
    rcases List.mem_getLast?_eq_getLast (by rw [hlc]; rfl) with ⟨hne', heq⟩
    rw [heq]
    exact List.getLast_mem hne'
  have hp2 : p.progress = lc.length := by rw [← hplc]
  rw [hfile, List.length_flatten, hp2]
  cases chunks with
  | nil => simp at hlen
  | cons c0 rest =>
      cases rest with
      | nil => simp at hlen
      | cons c1 cs =>
          rw [List.getLast?_cons_cons] at hlc
          have hlc' : lc ∈ c1 :: cs := by
            rcases List.mem_getLast?_eq_getLast (by rw [hlc]; rfl) with ⟨hne', heq⟩
            rw [heq]
            exact List.getLast_mem hne'
          have hlcsum : lc.length ≤ ((c1 :: cs).map List.length).sum :=
            List.single_le_sum (fun y _ => Nat.zero_le y) lc.length
              (List.mem_map_of_mem List.length hlc')
          have hc0 : c0 ≠ [] := hne c0 (by simp)
          have hc0len : 1 ≤ c0.length := by
            cases c0 with
            | nil => exact absurd rfl hc0
            | cons a t => exact Nat.succ_le_succ (Nat.zero_le _)
          have hsum : ((c0 :: c1 :: cs).map List.length).sum =
              c0.length + ((c1 :: cs).map List.length).sum := by
            simp
          rw [hsum]
          omega

theorem download_progress_last_chunk_witness :
    (⟨200, some 3, [StreamItem.chunk [1, 2], StreamItem.chunk [3]]⟩ : HttpResponse).body =
      [[1, 2], [3]].map StreamItem.chunk ∧
    ((download [] ⟨200, some 3, [StreamItem.chunk [1, 2], StreamItem.chunk [3]]⟩).events =
      [[1, 2], [3]].map (fun c => ⟨c.length,
        (⟨200, some 3, [StreamItem.chunk [1, 2], StreamItem.chunk [3]]⟩ :
          HttpResponse).contentLength.getD 0⟩) ∧
    (2 ≤ ([[1, 2], [3]] : List Bytes).length →
      (∀ c ∈ ([[1, 2], [3]] : List Bytes), c ≠ []) →
      ∀ p, (download [] ⟨200, some 3,
          [StreamItem.chunk [1, 2], StreamItem.chunk [3]]⟩).events.getLast? = some p →
        p.progress ≠ (download [] ⟨200, some 3,
          [StreamItem.chunk [1, 2], StreamItem.chunk [3]]⟩).file.length)) :=
  ⟨rfl, download_progress_last_chunk []
    ⟨200, some 3, [StreamItem.chunk [1, 2], StreamItem.chunk [3]]⟩ [[1, 2], [3]] rfl⟩

/-- C10: if the response carries no Content-Length header, every
progress event reports `total = 0`. -/
theorem download_no_content_length_total_zero (existing : Bytes) (resp : HttpResponse)
    (h : resp.contentLength = none) :
    ∀ p ∈ (download existing resp).events, p.total = 0 := by
  intro p hp
  unfold download at hp
  rcases downloadLoop_total_mem _ resp.body [] [] p hp with h' | h'
  · simp at h'
  · rw [h'] 
    rw [h]
    rfl

theorem download_no_content_length_total_zero_witness :
    (⟨200, none, [StreamItem.chunk [7], StreamItem.ioError]⟩ :
        HttpResponse).contentLength = none ∧
    ∀ p ∈ (download [] ⟨200, none,
        [StreamItem.chunk [7], StreamItem.ioError]⟩).events, p.total = 0 :=
  ⟨rfl, download_no_content_length_total_zero []
    ⟨200, none, [StreamItem.chunk [7], StreamItem.ioError]⟩ rfl⟩

end Upload

namespace Authenticator

theorem set_ne_of_ne (l : List Nat) (i v : Nat) (h : i < l.length)
    (hv : v ≠ l.getD i 0) : l.set i v ≠ l := by
  intro he
  apply hv
  have h2 : (l.set i v).getD i 0 = l.getD i 0 := by rw [he]
  have h3 : (l.set i v).getD i 0 = v := by
    simp [List.getD_eq_getElem?_getD, List.getElem?_set_self, h]
  rw [h3] at h2
  exact h2

theorem mkSig_inj {k1 m1 k2 m2 : Bytes} (h : mkSig k1 m1 = mkSig k2 m2) :
    k1 = k2 ∧ m1 = m2 := by
  unfold mkSig at h
  injection h with h1 h2
  exact List.append_inj h2 h1

theorem verifySig_iff (key msg sig : Bytes) :
    verifySig key msg sig = true ↔ sig = mkSig key msg := by
  simp [verifySig]

theorem parseCert_mkCert (key : Bytes) : parseCert (mkCert key) = .ok key := by
  simp [parseCert, mkCert]

theorem parseCert_ok {cert key : Bytes} (h : parseCert cert = .ok key) :
    cert = 0x30 :: key.length :: key := by
  unfold parseCert at h
  split at h
  · split at h
    · next hc =>
        injection h with h'
        subst h'
        rw [hc.1, hc.2]
    · exact absurd h (by simp)
  · exact absurd h (by simp)

/-- C5: APDU decode on a buffer shorter than 2 bytes is
`MalformedResponse`; decode is total, returning either
`MalformedResponse` or a status word with the remaining payload on every
byte buffer. -/
theorem apduDecode_short_and_total :
    (∀ bytes : Bytes, bytes.length < 2 →
      apduDecode bytes = .error .MalformedResponse) ∧
    (∀ bytes : Bytes, apduDecode bytes = .error .MalformedResponse ∨
      ∃ sw payload, apduDecode bytes = .ok (sw, payload) ∧
        payload = bytes.take (bytes.length - 2)) := by
  constructor
  · intro bytes h
    match bytes, h with
    | [], _ => rfl
    | [a], _ => rfl
  · intro bytes
    unfold apduDecode
    split
    · right
      exact ⟨_, _, rfl, rfl⟩
    · left
      rfl

theorem apduDecode_short_and_total_witness :
    ([42] : Bytes).length < 2 ∧ apduDecode [42] = .error .MalformedResponse :=
  ⟨by decide, apduDecode_short_and_total.1 [42] (by decide)⟩

/-- C7 counterexample: the invoke handler of the authenticator plugin
exposes `init_auth` in addition to the four named operations, so the
exposed surface is not exactly those four. -/
theorem authenticator_surface_not_exactly_four :
    "init_auth" ∈ authenticatorCommands ∧
    "init_auth" ∉ specCoreOperations ∧
    authenticatorCommands ≠ specCoreOperations ∧
    authenticatorCommands.length = 5 := by
  refine ⟨by simp [authenticatorCommands], by simp [specCoreOperations], ?_, rfl⟩
  intro h
  have := congrArg List.length h
  simp [authenticatorCommands, specCoreOperations] at this

/-- C7 amended: the exposed command surface is exactly `init_auth`
followed by the four core operations `register`, `verify_registration`,
`sign`, `verify_signature`. -/
theorem authenticator_surface_exact :
    authenticatorCommands = "init_auth" :: specCoreOperations := rfl

end Authenticator

namespace Authenticator

theorem exchangeLoop_start_some (f : Nat → Option Bytes) (timeout : Nat)
    (resp : Bytes) (hf : f 0 = some resp) :
    exchangeLoop f timeout 0 = (.ok resp, 0) := by
  rw [exchangeLoop]
  simp [hf]

theorem exchangeLoop_none_spec (timeout : Nat) :
    ∀ k elapsed, timeout + 1 - elapsed ≤ k → elapsed ≤ timeout + retryDelay →
      ∃ e, exchangeLoop (fun _ => none) timeout elapsed = (.error .TimedOut, e) ∧
        timeout < e ∧ e ≤ timeout + retryDelay := by
  intro k
  induction k with
  | zero =>
      intro elapsed hk he
      have hlt : timeout < elapsed := by omega
      refine ⟨elapsed, ?_, hlt, he⟩
      rw [exchangeLoop]
      simp [hlt]
  | succ n ih =>
      intro elapsed hk he
      by_cases hlt : timeout < elapsed
      · refine ⟨elapsed, ?_, hlt, he⟩
        rw [exchangeLoop]
        simp [hlt]
      · have step : exchangeLoop (fun _ => none) timeout elapsed =
            exchangeLoop (fun _ => none) timeout (elapsed + retryDelay) := by
          rw [exchangeLoop]
          simp [hlt]
        rw [step]
        apply ih
        · simp only [retryDelay]; omega
        · simp only [retryDelay] at *; omega

theorem exchangeLoop_ok_or_timeout (f : Nat → Option Bytes) (timeout : Nat) :
    ∀ k elapsed, timeout + 1 - elapsed ≤ k →
      (∃ r e, exchangeLoop f timeout elapsed = (.ok r, e)) ∨
      (∃ e, exchangeLoop f timeout elapsed = (.error .TimedOut, e) ∧ timeout < e) := by
  intro k
  induction k with
  | zero =>
      intro elapsed hk
      have hlt : timeout < elapsed := by omega
      right
      refine ⟨elapsed, ?_, hlt⟩
      rw [exchangeLoop]
      simp [hlt]
  | succ n ih =>
      intro elapsed hk
      by_cases hlt : timeout < elapsed
      · right
        refine ⟨elapsed, ?_, hlt⟩
        rw [exchangeLoop]
        simp [hlt]
      · cases hf : f elapsed with
        | some resp =>
            left
            refine ⟨resp, elapsed, ?_⟩
            rw [exchangeLoop]
            simp [hlt, hf]
        | none =>
            have step : exchangeLoop f timeout elapsed =
                exchangeLoop f timeout (elapsed + retryDelay) := by
              rw [exchangeLoop]
              simp [hlt, hf]
            rw [step]
            apply ih
            simp only [retryDelay]; omega

/-- C6: against a token that reports "conditions not satisfied" on every
exchange, `register` and `sign` return `TimedOut`; the retry loop exits
with `TimedOut` at an elapsed time strictly greater than the requested
timeout and within one retry delay of it — never before the timeout is
exceeded — and for any token behavior the loop only ever surfaces a
successful response or `TimedOut` (with the timeout exceeded), never a
"conditions not satisfied" error. -/
theorem register_sign_timed_out (hash : String → Bytes)
    (application challenge : String) (keyHandle : Bytes) (t : Nat) :
    register hash neverSatisfiedBehavior application t challenge =
      .error .TimedOut ∧
    sign hash neverSatisfiedBehavior application t challenge keyHandle =
      .error .TimedOut ∧
    (∃ e, exchangeLoop (fun _ => none) t 0 = (.error .TimedOut, e) ∧
      t < e ∧ e ≤ t + retryDelay) ∧
    (∀ behavior : Nat → Option Bytes,
      (∃ r e, exchangeLoop behavior t 0 = (.ok r, e)) ∨
      (∃ e, exchangeLoop behavior t 0 = (.error .TimedOut, e) ∧ t < e)) := by
  obtain ⟨e, heq, hgt, hle⟩ :=
    exchangeLoop_none_spec t (t + 1) 0 (by omega) (by simp [retryDelay])
  have h1 : (exchangeLoop (fun _ => none) t 0).1 = .error .TimedOut := by
    rw [heq]
  refine ⟨?_, ?_, ⟨e, heq, hgt, hle⟩, ?_⟩
  · have h1' : (exchangeLoop
        (neverSatisfiedBehavior
          (apduEncode U2F_REGISTER 0 0 (registerRequest hash application challenge)))
        t 0).1 = .error .TimedOut := h1
    unfold register
    simp only [h1']
  · have h1' : (exchangeLoop
        (neverSatisfiedBehavior
          (apduEncode U2F_AUTHENTICATE U2F_AUTH_ENFORCE 0
            (authRequest hash application challenge keyHandle)))
        t 0).1 = .error .TimedOut := h1
    unfold sign
    simp only [h1']
  · intro behavior
    exact exchangeLoop_ok_or_timeout behavior t (t + 1) 0 (by omega)

end Authenticator

namespace Authenticator

theorem apduDecode_append (payload : Bytes) (a b : Nat) :
    apduDecode (payload ++ [a, b]) = .ok (a * 256 + b, payload) := by
  unfold apduDecode
  have hlen : (payload ++ [a, b]).length - 2 = payload.length := by simp
  rw [hlen, List.drop_left' rfl, List.take_left' rfl]

theorem parseRegistration_honest (pk kh key sig : Bytes) (hpk : pk.length = 65) :
    parseRegistration (5 :: (pk ++ (kh.length :: (kh ++ (mkCert key ++ sig))))) =
      .ok ⟨pk, kh, mkCert key, sig⟩ := by
  unfold parseRegistration mkCert
  simp only [List.cons_append]
  rw [if_pos trivial]
  rw [if_pos (by simp [hpk])]
  rw [List.take_left' hpk, List.drop_left' hpk]
  simp only []
  rw [if_pos (by simp)]
  rw [List.take_left' rfl, List.drop_left' rfl]
  simp only []
  rw [if_pos (by simp)]
  rw [List.take_left' rfl, List.drop_left' rfl]

theorem register_honest (hash : String → Bytes) (tok : Token)
    (application challenge : String) (t : Nat) (hpk : tok.pubKey.length = 65) :
    register hash (honestRegisterBehavior hash tok application challenge)
        application t challenge =
      .ok ⟨tok.pubKey, tok.keyHandle, mkCert tok.attestKey,
        mkSig tok.attestKey
          (registerMessage hash application challenge tok.keyHandle tok.pubKey)⟩ := by
  unfold register
  have hex : exchangeLoop
      (honestRegisterBehavior hash tok application challenge
        (apduEncode U2F_REGISTER 0 0 (registerRequest hash application challenge)))
      t 0 =
      (.ok (tokenRegisterPayload hash tok application challenge ++ [0x90, 0x00]), 0) :=
    exchangeLoop_start_some _ _ _ rfl
  simp only [hex]
  rw [apduDecode_append]
  simp only []
  rw [if_pos (by norm_num [SW_NO_ERROR])]
  unfold tokenRegisterPayload
  exact parseRegistration_honest _ _ _ _ hpk

theorem verify_registration_honest (hash : String → Bytes)
    (application challenge : String) (pk kh key : Bytes) :
    verify_registration hash application challenge
      ⟨pk, kh, mkCert key,
        mkSig key (registerMessage hash application challenge kh pk)⟩ = .ok pk := by
  unfold verify_registration
  rw [parseCert_mkCert]
  simp [verifySig]

/-- C1: with a token that always signs correctly, for every
`(application, challenge)` pair and any timeout `t`,
`verify_registration application challenge (register application t
challenge)` succeeds and the public key it returns is bit-identical to
the 65-byte public key embedded in the registration blob produced by
`register`. -/
theorem register_verify_registration_roundtrip (hash : String → Bytes) (tok : Token)
    (application challenge : String) (t : Nat) (hpk : tok.pubKey.length = 65) :
    ∃ r, register hash (honestRegisterBehavior hash tok application challenge)
        application t challenge = .ok r ∧
      verify_registration hash application challenge r = .ok r.pubKey ∧
      r.pubKey = tok.pubKey ∧ r.pubKey.length = 65 := by
  refine ⟨⟨tok.pubKey, tok.keyHandle, mkCert tok.attestKey,
    mkSig tok.attestKey
      (registerMessage hash application challenge tok.keyHandle tok.pubKey)⟩,
    register_honest hash tok application challenge t hpk, ?_, rfl, hpk⟩
  exact verify_registration_honest hash application challenge _ _ _

theorem register_verify_registration_roundtrip_witness :
    (List.replicate 65 7 : Bytes).length = 65 ∧
    ∃ r, register (fun _ => [9])
        (honestRegisterBehavior (fun _ => [9])
          ⟨List.replicate 65 7, [1, 2], [3, 4], 5, 1⟩ "app" "ch")
        "app" 0 "ch" = .ok r ∧
      verify_registration (fun _ => [9]) "app" "ch" r = .ok r.pubKey ∧
      r.pubKey = (⟨List.replicate 65 7, [1, 2], [3, 4], 5, 1⟩ : Token).pubKey ∧
      r.pubKey.length = 65 :=
  ⟨by simp, register_verify_registration_roundtrip (fun _ => [9])
    ⟨List.replicate 65 7, [1, 2], [3, 4], 5, 1⟩ "app" "ch" 0 (by simp)⟩

end Authenticator

namespace Authenticator

/-- C2: given that the attestation certificate parses to `key`,
`verify_registration` succeeds exactly when the signature is valid under
`key` over the byte string
`0x00 || SHA256(application) || SHA256(challenge) || KeyHandle ||
PublicKey`, and any public key it returns is the registration's. -/
theorem verify_registration_signed_string (hash : String → Bytes)
    (application challenge : String) (r : RegistrationResult) (key : Bytes)
    (hc : parseCert r.attestCert = .ok key) :
    (verify_registration hash application challenge r = .ok r.pubKey ↔
      verifySig key
        (0 :: (hash application ++ (hash challenge ++ (r.keyHandle ++ r.pubKey))))
        r.signature = true) ∧
    ∀ pk, verify_registration hash application challenge r = .ok pk →
      pk = r.pubKey := by
  have hmsg : registerMessage hash application challenge r.keyHandle r.pubKey =
      0 :: (hash application ++ (hash challenge ++ (r.keyHandle ++ r.pubKey))) := rfl
  unfold verify_registration
  rw [hc]
  simp only []
  cases hvb : verifySig key
      (registerMessage hash application challenge r.keyHandle r.pubKey)
      r.signature with
  | false =>
      rw [hmsg] at hvb
      simp [hvb]
  | true =>
      rw [hmsg] at hvb
      simp [hvb]

theorem verify_registration_signed_string_witness :
    parseCert (⟨[1], [2], [48, 2, 3, 4], [2, 3, 4, 0, 2, 1]⟩ :
        RegistrationResult).attestCert = .ok [3, 4] ∧
    ((verify_registration (fun _ => []) "a" "c"
        ⟨[1], [2], [48, 2, 3, 4], [2, 3, 4, 0, 2, 1]⟩ =
        .ok (⟨[1], [2], [48, 2, 3, 4], [2, 3, 4, 0, 2, 1]⟩ :
          RegistrationResult).pubKey ↔
      verifySig [3, 4]
        (0 :: ((fun (_ : String) => ([] : Bytes)) "a" ++
          ((fun (_ : String) => ([] : Bytes)) "c" ++
            ((⟨[1], [2], [48, 2, 3, 4], [2, 3, 4, 0, 2, 1]⟩ :
              RegistrationResult).keyHandle ++
              (⟨[1], [2], [48, 2, 3, 4], [2, 3, 4, 0, 2, 1]⟩ :
                RegistrationResult).pubKey))))
        (⟨[1], [2], [48, 2, 3, 4], [2, 3, 4, 0, 2, 1]⟩ :
          RegistrationResult).signature = true) ∧
    ∀ pk, verify_registration (fun _ => []) "a" "c"
        ⟨[1], [2], [48, 2, 3, 4], [2, 3, 4, 0, 2, 1]⟩ = .ok pk →
      pk = (⟨[1], [2], [48, 2, 3, 4], [2, 3, 4, 0, 2, 1]⟩ :
        RegistrationResult).pubKey) :=
  ⟨rfl, verify_registration_signed_string (fun _ => []) "a" "c"
    ⟨[1], [2], [48, 2, 3, 4], [2, 3, 4, 0, 2, 1]⟩ [3, 4] rfl⟩

theorem parseSign_honest (p c : Nat) (sig : Bytes) :
    parseSign (p :: (toBE4 c ++ sig)) = .ok ⟨p, toBE4 c, sig⟩ := rfl

theorem sign_honest (hash : String → Bytes) (tok : Token)
    (application challenge : String) (t : Nat) :
    sign hash (honestSignBehavior hash tok application challenge)
        application t challenge tok.keyHandle =
      .ok ⟨tok.presence, toBE4 tok.counter,
        mkSig tok.pubKey
          (signMessage hash application tok.presence (toBE4 tok.counter)
            challenge)⟩ := by
  unfold sign
  have hex : exchangeLoop
      (honestSignBehavior hash tok application challenge
        (apduEncode U2F_AUTHENTICATE U2F_AUTH_ENFORCE 0
          (authRequest hash application challenge tok.keyHandle)))
      t 0 =
      (.ok (tokenSignPayload hash tok application challenge ++ [0x90, 0x00]), 0) :=
    exchangeLoop_start_some _ _ _ rfl
  simp only [hex]
  rw [apduDecode_append]
  simp only []
  rw [if_pos (by norm_num [SW_NO_ERROR])]
  unfold tokenSignPayload
  exact parseSign_honest _ _ _

theorem fromBE4_toBE4 (n : Nat) : fromBE4 (toBE4 n) = n % 2 ^ 32 := by
  unfold fromBE4 toBE4
  norm_num [List.getD]
  omega

/-- C3: for every sign blob produced by `sign` against an honestly
signing token, `verify_signature` with the matching key handle and the
registration's public key succeeds and returns the unsigned 32-bit
counter encoded big-endian in the blob; with any mismatched public key
it returns `InvalidSignature`. -/
theorem sign_verify_signature_roundtrip (hash : String → Bytes) (tok : Token)
    (application challenge : String) (t : Nat) (pk2 : Bytes) :
    ∃ s, sign hash (honestSignBehavior hash tok application challenge)
        application t challenge tok.keyHandle = .ok s ∧
      verify_signature hash application challenge s tok.keyHandle tok.pubKey =
        .ok (fromBE4 s.counter) ∧
      s.counter = toBE4 tok.counter ∧
      fromBE4 s.counter = tok.counter % 2 ^ 32 ∧
      fromBE4 s.counter < 2 ^ 32 ∧
      (pk2 ≠ tok.pubKey →
        verify_signature hash application challenge s tok.keyHandle pk2 =
          .error .InvalidSignature) := by
  refine ⟨⟨tok.presence, toBE4 tok.counter,
    mkSig tok.pubKey
      (signMessage hash application tok.presence (toBE4 tok.counter) challenge)⟩,
    sign_honest hash tok application challenge t, ?_, rfl, fromBE4_toBE4 _, ?_, ?_⟩
  · unfold verify_signature
    simp [verifySig]
  · rw [fromBE4_toBE4]
    exact Nat.mod_lt _ (by norm_num)
  · intro hne
    unfold verify_signature
    have hfalse : verifySig pk2
        (signMessage hash application tok.presence (toBE4 tok.counter) challenge)
        (mkSig tok.pubKey
          (signMessage hash application tok.presence (toBE4 tok.counter)
            challenge)) = false := by
      simp only [verifySig, decide_eq_false_iff_not]
      intro he
      exact hne ((mkSig_inj he).1).symm
    simp [hfalse]

theorem sign_verify_signature_roundtrip_witness :
    ([9] : Bytes) ≠ (⟨[1], [2], [3], 300, 1⟩ : Token).pubKey ∧
    ∃ s, sign (fun _ => [])
        (honestSignBehavior (fun _ => []) ⟨[1], [2], [3], 300, 1⟩ "a" "c")
        "a" 0 "c" (⟨[1], [2], [3], 300, 1⟩ : Token).keyHandle = .ok s ∧
      verify_signature (fun _ => []) "a" "c" s
          (⟨[1], [2], [3], 300, 1⟩ : Token).keyHandle
          (⟨[1], [2], [3], 300, 1⟩ : Token).pubKey = .ok (fromBE4 s.counter) ∧
      s.counter = toBE4 (⟨[1], [2], [3], 300, 1⟩ : Token).counter ∧
      fromBE4 s.counter = (⟨[1], [2], [3], 300, 1⟩ : Token).counter % 2 ^ 32 ∧
      fromBE4 s.counter < 2 ^ 32 ∧
      (([9] : Bytes) ≠ (⟨[1], [2], [3], 300, 1⟩ : Token).pubKey →
        verify_signature (fun _ => []) "a" "c" s
            (⟨[1], [2], [3], 300, 1⟩ : Token).keyHandle [9] =
          .error .InvalidSignature) :=
  ⟨by decide, sign_verify_signature_roundtrip (fun _ => [])
    ⟨[1], [2], [3], 300, 1⟩ "a" "c" 0 [9]⟩

end Authenticator

namespace Authenticator

theorem verify_registration_ok_inv {hash : String → Bytes}
    {application challenge : String} {r : RegistrationResult} {pk0 : Bytes}
    (h : verify_registration hash application challenge r = .ok pk0) :
    ∃ key, r.attestCert = 0x30 :: key.length :: key ∧
      r.signature =
        mkSig key (registerMessage hash application challenge r.keyHandle r.pubKey) ∧
      pk0 = r.pubKey := by
  unfold verify_registration at h
  cases hc : parseCert r.attestCert with
  | error e => rw [hc] at h; simp at h
  | ok key =>
      rw [hc] at h
      simp only [] at h
      cases hvb : verifySig key
          (registerMessage hash application challenge r.keyHandle r.pubKey)
          r.signature with
      | false => simp [hvb] at h
      | true =>
          simp [hvb] at h
          exact ⟨key, parseCert_ok hc, (verifySig_iff _ _ _).1 hvb, h.symm⟩

/-- C4: if a registration result verifies successfully, then after
overwriting any single byte of its signature, certificate, key handle,
or public key field with a different value, `verify_registration`
returns `InvalidSignature` or `InvalidCertificate` — never success. -/
theorem verify_registration_fail_closed (hash : String → Bytes)
    (application challenge : String) (r : RegistrationResult) (pk0 : Bytes)
    (hok : verify_registration hash application challenge r = .ok pk0)
    (f : RegField) (i v : Nat) (hi : i < (fieldBytes r f).length)
    (hv : v ≠ (fieldBytes r f).getD i 0) :
    verify_registration hash application challenge (mutateField r f i v) =
      .error .InvalidSignature ∨
    verify_registration hash application challenge (mutateField r f i v) =
      .error .InvalidCertificate := by
  obtain ⟨key, hcert, hsig, hpk0⟩ := verify_registration_ok_inv hok
  obtain ⟨pk, kh, cert, sg⟩ := r
  simp only [] at hcert hsig
  cases f with
  | signature =>
      left
      simp only [fieldBytes] at hi hv
      have hne : sg.set i v ≠ sg := set_ne_of_ne _ _ _ hi hv
      unfold verify_registration mutateField
      simp only []
      rw [hcert]
      rw [show parseCert (0x30 :: key.length :: key) = .ok key from parseCert_mkCert key]
      simp only []
      have hfalse : verifySig key (registerMessage hash application challenge kh pk)
          (sg.set i v) = false := by
        simp only [verifySig, decide_eq_false_iff_not]
        rw [← hsig]
        exact hne
      simp [hfalse]
  | pubKey =>
      left
      simp only [fieldBytes] at hi hv
      have hne : pk.set i v ≠ pk := set_ne_of_ne _ _ _ hi hv
      unfold verify_registration mutateField
      simp only []
      rw [hcert]
      rw [show parseCert (0x30 :: key.length :: key) = .ok key from parseCert_mkCert key]
      simp only []
      have hmsgne : registerMessage hash application challenge kh (pk.set i v) ≠
          registerMessage hash application challenge kh pk := by
        intro he
        unfold registerMessage at he
        injection he with h1 h2
        have e1 := List.append_cancel_left h2
        have e2 := List.append_cancel_left e1
        have e3 := List.append_cancel_left e2
        exact hne e3
      have hfalse : verifySig key
          (registerMessage hash application challenge kh (pk.set i v)) sg = false := by
        simp only [verifySig, decide_eq_false_iff_not]
        rw [hsig]
        intro he
        exact hmsgne ((mkSig_inj he).2).symm
      simp [hfalse]
  | keyHandle =>
      left
      simp only [fieldBytes] at hi hv
      have hne : kh.set i v ≠ kh := set_ne_of_ne _ _ _ hi hv
      unfold verify_registration mutateField
      simp only []
      rw [hcert]
      rw [show parseCert (0x30 :: key.length :: key) = .ok key from parseCert_mkCert key]
      simp only []
      have hmsgne : registerMessage hash application challenge (kh.set i v) pk ≠
          registerMessage hash application challenge kh pk := by
        intro he
        unfold registerMessage at he
        injection he with h1 h2
        have e1 := List.append_cancel_left h2
        have e2 := List.append_cancel_left e1
        have e3 := (List.append_inj e2 (by simp)).1
        exact hne e3
      have hfalse : verifySig key
          (registerMessage hash application challenge (kh.set i v) pk) sg = false := by
        simp only [verifySig, decide_eq_false_iff_not]
        rw [hsig]
        intro he
        exact hmsgne ((mkSig_inj he).2).symm
      simp [hfalse]
  | attestCert =>
      simp only [fieldBytes] at hi hv
      subst hcert
      match i, hi, hv with
      | 0, hi, hv =>
          right
          have hv48 : v ≠ 0x30 := by simpa using hv
          unfold verify_registration mutateField
          simp only []
          have hpc : parseCert ((0x30 :: key.length :: key).set 0 v) =
              .error .InvalidCertificate := by
            simp [parseCert, List.set, hv48]
          rw [hpc]
      | 1, hi, hv =>
          right
          have hvlen : v ≠ key.length := by simpa using hv
          unfold verify_registration mutateField
          simp only []
          have hpc : parseCert ((0x30 :: key.length :: key).set 1 v) =
              .error .InvalidCertificate := by
            simp [parseCert, List.set, hvlen]
          rw [hpc]
      | (k + 2), hi, hv =>
          left
          have hk : k < key.length := by simpa using hi
          have hvk : v ≠ key.getD k 0 := by simpa [List.getD] using hv
          have hkeyne : key.set k v ≠ key := set_ne_of_ne _ _ _ hk hvk
          unfold verify_registration mutateField
          simp only []
          have hset : (0x30 :: key.length :: key).set (k + 2) v =
              0x30 :: key.length :: key.set k v := rfl
          rw [hset]
          have hpc : parseCert (0x30 :: key.length :: key.set k v) =
              .ok (key.set k v) := by
            simp [parseCert]
          rw [hpc]
          simp only []
          have hfalse : verifySig (key.set k v)
              (registerMessage hash application challenge kh pk) sg = false := by
            simp only [verifySig, decide_eq_false_iff_not]
            rw [hsig]
            intro he
            exact hkeyne ((mkSig_inj he).1).symm
          simp [hfalse]

theorem verify_registration_fail_closed_witness :
    verify_registration (fun _ => []) "a" "c"
      ⟨[1], [2], [48, 2, 3, 4], [2, 3, 4, 0, 2, 1]⟩ = .ok [1] ∧
    0 < (fieldBytes ⟨[1], [2], [48, 2, 3, 4], [2, 3, 4, 0, 2, 1]⟩
      RegField.signature).length ∧
    9 ≠ (fieldBytes ⟨[1], [2], [48, 2, 3, 4], [2, 3, 4, 0, 2, 1]⟩
      RegField.signature).getD 0 0 ∧
    (verify_registration (fun _ => []) "a" "c"
        (mutateField ⟨[1], [2], [48, 2, 3, 4], [2, 3, 4, 0, 2, 1]⟩
          RegField.signature 0 9) = .error .InvalidSignature ∨
      verify_registration (fun _ => []) "a" "c"
        (mutateField ⟨[1], [2], [48, 2, 3, 4], [2, 3, 4, 0, 2, 1]⟩
          RegField.signature 0 9) = .error .InvalidCertificate) :=
  ⟨rfl, by decide, by decide,
    verify_registration_fail_closed (fun _ => []) "a" "c"
      ⟨[1], [2], [48, 2, 3, 4], [2, 3, 4, 0, 2, 1]⟩ [1] rfl
      RegField.signature 0 9 (by decide) (by decide)⟩

end Authenticator
